import Mathlib

/-!
Verification of the TIGER extension's downsampling core (`src/extension/src/lttb.rs`
and `src/extension/src/asap.rs`) against its natural-language specification.

Embedding conventions:
* Rust `i64`/`i32` values are embedded as `Int`; the few places where a Rust
  integer cast can wrap (`i32 as usize`, `i32 as u32`) carry an explicit
  `% 2 ^ w`.
* Rust `f64` values are embedded as `ℚ` (exact arithmetic standing in for
  IEEE 754 doubles); every floating operation of the source is mirrored by the
  corresponding exact rational operation, and `f64 as usize` casts (truncation
  toward zero, saturating at 0 for negatives) become `Int.toNat ∘ Int.floor`,
  which agrees with them on the values arising here.
* Rust panics (explicit `panic!`/`error!` macros, division by zero, out-of-range
  indexing/`unwrap`) are embedded as `Except` errors; the error taxonomy of the
  specification's §7 names the constructors.
* The `time_series` helper crate is part of the repository but not under `src/`;
  the handful of its operations used here (`add_point`, `sort`,
  `new_explicit_series`, point materialization) are modelled from the
  specification and marked as such in their doc comments.
-/

/-- Point model of the `time_series` crate as used by `src/`: an `i64` timestamp
and an `f64` value (embedded as `ℚ`). -/
structure TSPoint where
  ts : Int
  val : ℚ
deriving DecidableEq

/-- Explicit series of the `time_series` crate: insertion-ordered points plus the
`ordered` optimization flag (visible in `asap.rs`, which constructs
`ExplicitTimeSeries { ordered: true, points: vec![p] }`). -/
structure ExplicitTimeSeries where
  ordered : Bool
  points : List TSPoint
deriving DecidableEq

/-- Normal series: a start timestamp, a step interval and implicit values, as in
the `NormalTimeSeries { start_ts, step_interval, values }` construction of
`asap.rs`. -/
structure NormalTimeSeries where
  start_ts : Int
  step_interval : Int
  values : List ℚ
deriving DecidableEq

/-- Tagged union of the two series forms (`InternalTimeSeries` in the source). -/
inductive InternalTimeSeries
  | Explicit (s : ExplicitTimeSeries)
  | Normal (s : NormalTimeSeries)
deriving DecidableEq

/-- Error taxonomy of specification §7.  Each Rust panic site of `src/` is mapped
to one constructor: the `error!("resolution must be greater than 2")` call of
`lttb_trans` to `configurationError`, the
`panic!("Not enough data to generate a smoothed representation")` of
`asap_final` to `insufficientData`, and the defensive panics (the
`panic!("Unexpected timeseries format encountered")`, the `assert!`, the
`unreachable!`, and the arithmetic division-by-zero / out-of-bounds panics of
`find_downsample_interval` and `asap_final`) to `invariantViolation`. -/
inductive AggError
  | configurationError
  | insufficientData
  | invariantViolation
deriving DecidableEq

/-- Error type of the external `time_series` normalization collaborator; only
`InsufficientDataToExtrapolate` is matched by name in `asap_final`, every other
variant hits the `unreachable!` arm. -/
inductive TimeSeriesError
  | InsufficientDataToExtrapolate
  | OtherError
deriving DecidableEq

/-- Gapfill method passed to the normalization collaborator (`GapfillMethod::Linear`). -/
inductive GapfillMethod
  | Linear
deriving DecidableEq

/-! ## LTTB core (`lttb` in `src/extension/src/lttb.rs`, lines 94-166) -/

/-- Read `data[i]` with a default; every access of the algorithm is proved to be
in range in the validated regime `2 < threshold < data.length`. -/
def dAt (data : List TSPoint) (i : Nat) : TSPoint :=
  data.getD i ⟨0, 0⟩

/-- Bucket boundary `(k as f64 * every) as usize + 1` of the source, with the
`f64 → usize` cast embedded as `Int.toNat ∘ Int.floor`. -/
def bucketIdx (every : ℚ) (k : Nat) : Nat :=
  (⌊(k : ℚ) * every⌋).toNat + 1

/-- Accumulation loops `avg_x += data[idx].ts; avg_y += data[idx].val` of the
source, over `idx = start, start+1, ..., start+len-1`. -/
def avgSums (data : List TSPoint) (start len : Nat) : Int × ℚ :=
  (List.range len).foldl
    (fun acc j => (acc.1 + (dAt data (start + j)).ts, acc.2 + (dAt data (start + j)).val))
    (0, 0)

/-- Average point of the next bucket, as computed by the source: the timestamp
average uses the truncating `i64` division `avg_x /= avg_range_length as i64`,
the value average the `f64` division `avg_y /= avg_range_length`; the bucket end
is clamped to `data.len()`. -/
def bucketAvg (data : List TSPoint) (every : ℚ) (i : Nat) : Int × ℚ :=
  let avg_range_start := bucketIdx every (i + 1)
  let e0 := bucketIdx every (i + 2)
  let avg_range_end := if data.length ≤ e0 then data.length else e0
  let len := avg_range_end - avg_range_start
  let s := avgSums data avg_range_start len
  (s.1.tdiv (len : Int), s.2 / (len : ℚ))

/-- Triangle-area expression of the source's inner loop:
`((point_a_x - avg_x) as f64 * (data[idx].val - point_a_y)
 - (point_a_x - data[idx].ts) as f64 * (avg_y - point_a_y)).abs() * 0.5`. -/
def triangleArea (pa : TSPoint) (avg : Int × ℚ) (p : TSPoint) : ℚ :=
  |((pa.ts - avg.1 : Int) : ℚ) * (p.val - pa.val)
    - ((pa.ts - p.ts : Int) : ℚ) * (avg.2 - pa.val)| * (1 / 2)

/-- Selection loop of the source: running state `(max_area, next_a)` initialized
to `(-1, range_offs)`, updated on a strict `area > max_area` comparison while
`idx` sweeps `range_offs, ..., range_to - 1` in ascending order. -/
def selectInBucket (data : List TSPoint) (a : Nat) (avg : Int × ℚ)
    (range_offs range_to : Nat) : Nat :=
  let pa := dAt data a
  ((List.range (range_to - range_offs)).foldl
    (fun st j =>
      let idx := range_offs + j
      let area := triangleArea pa avg (dAt data idx)
      if st.1 < area then (area, idx) else st)
    ((-1 : ℚ), range_offs)).2

/-- Main bucket loop of `lttb` (`for i in 0..threshold - 2`), carrying the index
`a` of the previously selected point; each iteration averages the next bucket,
selects from the current bucket and pushes the selected point. -/
def lttbLoop (data : List TSPoint) (every : ℚ) : Nat → Nat → Nat → List TSPoint
  | _, _, 0 => []
  | a, i, n + 1 =>
    let next_a := selectInBucket data a (bucketAvg data every i)
      (bucketIdx every i) (bucketIdx every (i + 1))
    dAt data next_a :: lttbLoop data every next_a (i + 1) n

/-- Index trace of `lttbLoop`: the same recursion, recording the selected index
of every iteration instead of the selected point. -/
def lttbLoopIdx (data : List TSPoint) (every : ℚ) : Nat → Nat → Nat → List Nat
  | _, _, 0 => []
  | a, i, n + 1 =>
    let next_a := selectInBucket data a (bucketAvg data every i)
      (bucketIdx every i) (bucketIdx every (i + 1))
    next_a :: lttbLoopIdx data every next_a (i + 1) n

/-- Embedding of `pub fn lttb(data: &[TSPoint], threshold: usize)` from
`src/extension/src/lttb.rs`.  The passthrough guard, the real-valued bucket
width `every`, the per-iteration bucket boundaries, the selection loop and the
fixed first/last points follow the source line by line; outside the validated
regime `2 < threshold < data.length` (where the source can panic through
`usize` underflow or division by zero) the embedding's value is not used by any
claim. -/
def lttb (data : List TSPoint) (threshold : Nat) : List TSPoint :=
  if data.length ≤ threshold ∨ threshold = 0 then data
  else
    let every : ℚ := ((data.length - 2 : Nat) : ℚ) / ((threshold - 2 : Nat) : ℚ)
    (dAt data 0 :: lttbLoop data every 0 0 (threshold - 2)) ++ [dAt data (data.length - 1)]

example : lttb [⟨0, 0⟩, ⟨1, 10⟩, ⟨2, 0⟩, ⟨3, 10⟩, ⟨4, 0⟩] 3
    = [⟨0, 0⟩, ⟨1, 10⟩, ⟨4, 0⟩] := by with_unfolding_all decide

example : lttb [⟨0, 0⟩, ⟨1, 10⟩] 0 = [⟨0, 0⟩, ⟨1, 10⟩] := by with_unfolding_all decide

/-! ## Spec-modelled pieces of the `time_series` crate (not under `src/`) -/

/-- Modelled from the spec: `ExplicitTimeSeries` append used by `add_point`; the
crate's source is not under `src/`.  Specification §4.1/§3: the point is
appended (O(1), no dedup, no reordering) and `ordered` stays true only if the
new point's `ts` is ≥ the previous last point's `ts`. -/
def ExplicitTimeSeries.add_point (s : ExplicitTimeSeries) (p : TSPoint) : ExplicitTimeSeries :=
  { ordered := s.ordered &&
      match s.points.getLast? with
      | none => true
      | some q => decide (q.ts ≤ p.ts),
    points := s.points ++ [p] }

/-- Relation "sorted ascending by timestamp" used throughout. -/
def tsLE (a b : TSPoint) : Prop := a.ts ≤ b.ts

/-- Relation "strictly increasing timestamps". -/
def tsLT (a b : TSPoint) : Prop := a.ts < b.ts

instance : DecidableRel tsLE := fun a b => inferInstanceAs (Decidable (a.ts ≤ b.ts))

instance : DecidableRel tsLT := fun a b => inferInstanceAs (Decidable (a.ts < b.ts))

instance : IsTotal TSPoint tsLE := ⟨fun a b => le_total a.ts b.ts⟩

instance : IsTrans TSPoint tsLE := ⟨fun _ _ _ h h' => le_trans h h'⟩

instance : IsTrans TSPoint tsLT := ⟨fun _ _ _ h h' => lt_trans h h'⟩

instance : IsAntisymm TSPoint tsLT := ⟨fun _ _ h h' => absurd h' (lt_asymm h)⟩

/-- Modelled from the spec: the crate's `sort` operation (`time_series`, not
under `src/`).  Specification §4.2: the finalizer sorts `points` ascending by
`ts` with a stable sort unless the series is already marked `ordered`;
afterwards `ordered` is true.  `List.insertionSort` is a stable sort. -/
def ExplicitTimeSeries.sort (s : ExplicitTimeSeries) : ExplicitTimeSeries :=
  if s.ordered then s else ⟨true, s.points.insertionSort tsLE⟩

/-- Modelled from the spec: `TimeSeries::new_explicit_series` of the crate
(§4.1, state creation): an empty explicit series, vacuously ordered. -/
def new_explicit_series : InternalTimeSeries :=
  .Explicit ⟨true, []⟩

/-- Modelled from the spec: `add_point` on the tagged union (§9: exhaustive
matching per variant; §4.1 defines accumulation only for the explicit form, and
the pipeline of `src/` only ever appends to explicit series, so the normal
variant is left unchanged). -/
def InternalTimeSeries.add_point : InternalTimeSeries → TSPoint → InternalTimeSeries
  | .Explicit s, p => .Explicit (s.add_point p)
  | .Normal s, _ => .Normal s

/-- Modelled from the spec: `sort` on the tagged union (§4.2; a normal series is
implicitly ordered by construction, §3). -/
def InternalTimeSeries.sort : InternalTimeSeries → InternalTimeSeries
  | .Explicit s => .Explicit s.sort
  | .Normal s => .Normal s

/-- Modelled from the spec: point materialization of a series (the
`Cow::from(&state.series)` slice used by `lttb_final`); §3: a normal series
represents points implicitly at `start_ts + i * step_interval`. -/
def InternalTimeSeries.points : InternalTimeSeries → List TSPoint
  | .Explicit s => s.points
  | .Normal s => (List.range s.values.length).map
      fun (i : Nat) => ⟨s.start_ts + (i : Int) * s.step_interval, s.values.getD i 0⟩

/-! ## LTTB aggregate (`lttb_trans`, `lttb_final` in `src/extension/src/lttb.rs`) -/

/-- State of the LTTB aggregate (`LttbTrans { series, resolution }`;
`resolution` is a `usize` in the source, hence `Nat`). -/
structure LttbTrans where
  series : InternalTimeSeries
  resolution : Nat
deriving DecidableEq

/-- Embedding of `lttb_trans` (lines 23-57 of `lttb.rs`).  A missing `val`
returns the state unchanged; a missing state is created after the
`resolution <= 2` check (whose `error!` call is the `configurationError`);
then the point is appended.  The `time` argument is not optional in the
source (`pg_sys::TimestampTz`, not `Option`). -/
def lttb_trans (state : Option LttbTrans) (time : Int) (val : Option ℚ)
    (resolution : Int) : Except AggError (Option LttbTrans) :=
  match val with
  | none => .ok state
  | some val => do
    let state ← match state with
      | some state => pure state
      | none =>
        if resolution ≤ 2 then throw .configurationError
        else pure ⟨new_explicit_series, resolution.toNat⟩
    pure (some { state with series := state.series.add_point ⟨time, val⟩ })

/-- Wire output of `lttb_final`: the `SeriesType::SortedSeries` form with its
`num_points` count. -/
structure SortedSeriesOutput where
  num_points : Nat
  points : List TSPoint
deriving DecidableEq

/-- Embedding of `lttb_final` (lines 59-83 of `lttb.rs`): `None` state yields no
output; otherwise the series is sorted, downsampled with the stored resolution
and flattened into the sorted-series wire form. -/
def lttb_final (state : Option LttbTrans) : Option SortedSeriesOutput :=
  match state with
  | none => none
  | some state =>
    let sorted := state.series.sort
    let downsampled := lttb sorted.points state.resolution
    some ⟨downsampled.length, downsampled⟩

/-- Row-feeding loop of the host: every row of the group is passed to
`lttb_trans` with the same `resolution`, starting from the absent state. -/
def feedLttb (rows : List (Int × Option ℚ)) (resolution : Int) :
    Except AggError (Option LttbTrans) :=
  rows.foldlM (fun st row => lttb_trans st row.1 row.2 resolution) none

/-- Whole LTTB aggregation: feed all rows, then finalize. -/
def lttbPipeline (rows : List (Int × Option ℚ)) (resolution : Int) :
    Except AggError (Option SortedSeriesOutput) :=
  (feedLttb rows resolution).map lttb_final

/-! ## ASAP aggregate (`asap_trans`, `find_downsample_interval`, `asap_final`
in `src/extension/src/asap.rs`) -/

/-- State of the ASAP aggregate (`ASAPTransState { ts, resolution }`, with an
`i32` resolution). -/
structure ASAPTransState where
  ts : InternalTimeSeries
  resolution : Int
deriving DecidableEq

/-- Embedding of `asap_trans` (lines 33-68 of `asap.rs`): rows with a missing
value, then rows with a missing timestamp, are returned unchanged (in the
source's match order); otherwise the state is created around the single point
or the point is appended. -/
def asap_trans (state : Option ASAPTransState) (ts : Option Int) (val : Option ℚ)
    (resolution : Int) : Option ASAPTransState :=
  match ts, val with
  | _, none => state
  | none, _ => state
  | some ts, some val =>
    let p : TSPoint := ⟨ts, val⟩
    match state with
    | none => some ⟨.Explicit ⟨true, [p]⟩, resolution⟩
    | some s => some ⟨s.ts.add_point p, s.resolution⟩

/-- Consecutive-gap list of `find_downsample_interval`
(`diffs[i-1] = points[i].ts - points[i-1].ts`). -/
def gapsOf (points : List TSPoint) : List Int :=
  List.zipWith (fun a b => a.ts - b.ts) points.tail points

/-- Embedding of `find_downsample_interval` (lines 70-89 of `asap.rs`).  The
`assert!(series.ordered)`, the `unwrap`s on first/last, the `i64` divisions by
`resolution` and by `median` (which panic when the divisor is zero) and the
out-of-range `diffs[diffs.len() / 2]` index of the source are embedded as
`invariantViolation` errors, per the taxonomy of specification §7. -/
def find_downsample_interval (series : ExplicitTimeSeries) (resolution : Int) :
    Except AggError Int := do
  if !series.ordered then throw .invariantViolation
  let first ← match series.points.head? with
    | some p => pure p
    | none => throw .invariantViolation
  let last ← match series.points.getLast? with
    | some p => pure p
    | none => throw .invariantViolation
  if resolution = 0 then throw .invariantViolation
  let candidate := (last.ts - first.ts).tdiv resolution
  let diffs := gapsOf series.points
  let sortedDiffs := diffs.insertionSort (· ≤ ·)
  let median ← match sortedDiffs.get? (sortedDiffs.length / 2) with
    | some m => pure m
    | none => throw .invariantViolation
  if median = 0 then throw .invariantViolation
  pure (candidate.tdiv median * median)

/-- Wrap of the Rust `i32 as usize` cast (sign extension then reinterpretation
modulo `2 ^ 64`). -/
def usize_of_i32 (r : Int) : Nat :=
  (r % (2 : Int) ^ 64).toNat

/-- Wrap of the Rust `i32 as u32` cast. -/
def u32_of_i32 (r : Int) : Int :=
  r % (2 : Int) ^ 32

/-- Error translation of the `match normal` arm of `asap_final`: the
`InsufficientDataToExtrapolate` collaborator error panics with
"Not enough data to generate a smoothed representation" (`insufficientData`),
every other collaborator error hits `unreachable!` (`invariantViolation`). -/
def liftTSError : Except TimeSeriesError NormalTimeSeries → Except AggError NormalTimeSeries
  | .ok n => .ok n
  | .error .InsufficientDataToExtrapolate => .error .insufficientData
  | .error .OtherError => .error .invariantViolation

/-- Tail of `asap_final` after the normal series is obtained: drop the last
value (`normal.values.pop()`), smooth with `state.resolution as u32`, and set
`step_interval = normal.step_interval * normal.values.len() as i64 /
result.values.len() as i64` (an `i64` division that panics when the smoother
returns no values). -/
def asapTail (asap_smooth : List ℚ → Int → List ℚ) (resolution : Int)
    (normal : NormalTimeSeries) : Except AggError NormalTimeSeries := do
  let popped := normal.values.dropLast
  let smoothed := asap_smooth popped (u32_of_i32 resolution)
  if smoothed.length = 0 then throw .invariantViolation
  pure ⟨normal.start_ts,
    (normal.step_interval * (popped.length : Int)).tdiv (smoothed.length : Int),
    smoothed⟩

/-- Fallback bucket width of the sparse branch of `asap_final`:
`(last.ts - first.ts) / points.len() as i64`, with the `unwrap`s embedded as
errors (the pipeline never reaches them on an empty series). -/
def sparseWidth (series : ExplicitTimeSeries) : Except AggError Int := do
  let first ← match series.points.head? with
    | some p => pure p
    | none => throw .invariantViolation
  let last ← match series.points.getLast? with
    | some p => pure p
    | none => throw .invariantViolation
  if (series.points.length : Int) = 0 then throw .invariantViolation
  pure ((last.ts - first.ts).tdiv (series.points.length : Int))

/-- Embedding of `asap_final` (lines 91-138 of `asap.rs`), parameterized by the
two external collaborators (`downsample_and_gapfill_to_normal_form` and
`asap_smooth`, specification §6).  A non-explicit series variant hits the
source's `panic!("Unexpected timeseries format encountered")`.  The density
branch compares `series.points.len() >= 2 * state.resolution as usize`. -/
def asap_final
    (downsample_and_gapfill : ExplicitTimeSeries → Int → GapfillMethod →
      Except TimeSeriesError NormalTimeSeries)
    (asap_smooth : List ℚ → Int → List ℚ)
    (state : Option ASAPTransState) : Except AggError (Option NormalTimeSeries) :=
  match state with
  | none => .ok none
  | some state =>
    match state.ts with
    | .Normal _ => .error .invariantViolation
    | .Explicit series₀ => do
      let series := series₀.sort
      let normal ←
        if 2 * usize_of_i32 state.resolution % 2 ^ 64 ≤ series.points.length then do
          let downsample_interval ← find_downsample_interval series state.resolution
          liftTSError (downsample_and_gapfill series downsample_interval .Linear)
        else do
          let w ← sparseWidth series
          liftTSError (downsample_and_gapfill series w .Linear)
      let result ← asapTail asap_smooth state.resolution normal
      pure (some result)

/-- Row-feeding loop of the host for the ASAP aggregate. -/
def feedAsap (rows : List (Option Int × Option ℚ)) (resolution : Int) :
    Option ASAPTransState :=
  rows.foldl (fun st row => asap_trans st row.1 row.2 resolution) none

/-- Whole ASAP aggregation: feed all rows, then finalize with the given
collaborators. -/
def asapPipeline
    (downsample_and_gapfill : ExplicitTimeSeries → Int → GapfillMethod →
      Except TimeSeriesError NormalTimeSeries)
    (asap_smooth : List ℚ → Int → List ℚ)
    (rows : List (Option Int × Option ℚ)) (resolution : Int) :
    Except AggError (Option NormalTimeSeries) :=
  asap_final downsample_and_gapfill asap_smooth (feedAsap rows resolution)

/-! ## Specification-side definitions (written from the spec's words, to be
compared with the source embedding) -/

/-- Average point of a bucket as the specification words it (§4.5 step 1):
truncating integer averaging for the timestamp component and floating
averaging for the value component. -/
def specAvgPoint (pts : List TSPoint) : Int × ℚ :=
  ((pts.map TSPoint.ts).sum.tdiv (pts.length : Int),
    (pts.map TSPoint.val).sum / (pts.length : ℚ))

/-- Triangle area as the specification words it (§4.5 step 2): the standard
two-vector cross-product formula `|(b - a) × (c - a)| * 0.5` for the triangle
on the previous selection `a`, the candidate `b` and the next-bucket average
`c`. -/
def specTriangleArea (a : TSPoint) (b : TSPoint) (c : Int × ℚ) : ℚ :=
  |((b.ts - a.ts : Int) : ℚ) * (c.2 - a.val)
    - ((c.1 - a.ts : Int) : ℚ) * (b.val - a.val)| * (1 / 2)

/-- First-seen-wins maximizer of the specification (§4.5 step 3): sweep the
candidates in ascending order, replacing the running best only on a strictly
larger score, so the first maximal candidate is kept. -/
def firstMaxBy (f : TSPoint → ℚ) : List TSPoint → Option TSPoint
  | [] => none
  | p :: ps => some (ps.foldl (fun best q => if f best < f q then q else best) p)

/-- Point range of bucket `k` as the specification words it (§4.5): the points
with indices in `[⌊k * every⌋ + 1, ⌊(k+1) * every⌋ + 1)`, clipped to the data
(the natural clipping of `drop`/`take`). -/
def specBucket (data : List TSPoint) (every : ℚ) (k : Nat) : List TSPoint :=
  (data.drop (bucketIdx every k)).take (bucketIdx every (k + 1) - bucketIdx every k)

/-- Per-bucket selection loop as the specification words it (§4.5 steps 1-4):
average the next bucket, select the first area-maximal point of the current
bucket against the previously selected point and that average, append it and
make it the new previous point. -/
def specLttbLoop (data : List TSPoint) (every : ℚ) : TSPoint → Nat → Nat → List TSPoint
  | _, _, 0 => []
  | aPt, i, n + 1 =>
    let avg := specAvgPoint (specBucket data every (i + 1))
    let chosen := (firstMaxBy (fun p => specTriangleArea aPt p avg)
      (specBucket data every i)).getD aPt
    chosen :: specLttbLoop data every chosen (i + 1) n

/-- LTTB as the specification words it: passthrough on `threshold == 0` or
`threshold ≥ data.length`, otherwise the first point, one selection per bucket
`i = 0, ..., threshold - 3`, and the last point. -/
def specLttb (data : List TSPoint) (threshold : Nat) : List TSPoint :=
  if data.length ≤ threshold ∨ threshold = 0 then data
  else
    let every : ℚ := ((data.length - 2 : Nat) : ℚ) / ((threshold - 2 : Nat) : ℚ)
    let first := data.headD ⟨0, 0⟩
    (first :: specLttbLoop data every first 0 (threshold - 2)) ++ [data.getLastD ⟨0, 0⟩]

/-- Median gap as the claims word it: the element at index `len / 2` of the
sorted list of consecutive timestamp gaps. -/
def medianGap (points : List TSPoint) : Int :=
  ((gapsOf points).insertionSort (· ≤ ·)).getD ((gapsOf points).length / 2) 0

/-- Downsample-interval width request of `asap_final` as the specification words
it (§4.4 step 1): the §4.3 heuristic when the point count is at least
`2 × resolution`, the total range divided by the point count otherwise. -/
def requestedWidth (series : ExplicitTimeSeries) (resolution : Int) :
    Except AggError Int :=
  if 2 * resolution ≤ (series.points.length : Int) then
    find_downsample_interval series resolution
  else
    sparseWidth series

/-! ## Row bookkeeping and ordering invariants used by the order-independence
analysis -/

/-- Points actually accumulated by `lttb_trans` from a row list: rows whose
value is present (the timestamp is never optional for LTTB). -/
def keptLttb (rows : List (Int × Option ℚ)) : List TSPoint :=
  rows.filterMap fun row => row.2.map fun v => ⟨row.1, v⟩

/-- Points actually accumulated by `asap_trans` from a row list: rows whose
timestamp and value are both present. -/
def keptAsap (rows : List (Option Int × Option ℚ)) : List TSPoint :=
  rows.filterMap fun row =>
    match row.1, row.2 with
    | some t, some v => some ⟨t, v⟩
    | _, _ => none

/-- Invariant of the accumulator (specification §3): whenever the `ordered`
flag is set, the stored points are nondecreasing in timestamp. -/
def OrderedOk (e : ExplicitTimeSeries) : Prop :=
  e.ordered = true → List.Chain' tsLE e.points

/-! ## C4 — LTTB passthrough -/

/-- Claim C4: for every input sequence `data` and every `threshold` with
`threshold == 0` or `threshold ≥ data.length`, `lttb(data, threshold)` returns
`data` unchanged, element for element. -/
theorem lttb_passthrough (data : List TSPoint) (threshold : Nat)
    (h : threshold = 0 ∨ data.length ≤ threshold) :
    lttb data threshold = data := by
  rcases h with h | h <;> simp [lttb, h]

/-- Witness for C4 at a concrete input. -/
theorem lttb_passthrough_witness :
    ((0 : Nat) = 0 ∨ ([⟨0, 1⟩, ⟨1, 2⟩] : List TSPoint).length ≤ 0) ∧
      lttb [⟨0, 1⟩, ⟨1, 2⟩] 0 = [⟨0, 1⟩, ⟨1, 2⟩] :=
  ⟨Or.inl rfl, lttb_passthrough [⟨0, 1⟩, ⟨1, 2⟩] 0 (Or.inl rfl)⟩

/-! ## C7 — LTTB resolution validation -/

/-- Claim C7: calling the LTTB row-feed with `resolution ≤ 2` on a
not-yet-created state and a present value reports a `configurationError`
before any point is accumulated, and the whole aggregation feeding such a
first row aborts with that error. -/
theorem lttb_trans_resolution_validation (time : Int) (v : ℚ) (resolution : Int)
    (rows : List (Int × Option ℚ)) (h : resolution ≤ 2) :
    lttb_trans none time (some v) resolution = .error .configurationError ∧
      feedLttb ((time, some v) :: rows) resolution = .error .configurationError := by
  have h1 : lttb_trans none time (some v) resolution = .error .configurationError := by
    simp only [lttb_trans]
    rw [if_pos h]
    rfl
  refine ⟨h1, ?_⟩
  show ((time, some v) :: rows).foldlM
    (fun st row => lttb_trans st row.1 row.2 resolution) none = _
  rw [List.foldlM_cons, h1]
  rfl

/-- Witness for C7 at a concrete input. -/
theorem lttb_trans_resolution_validation_witness :
    (2 : Int) ≤ 2 ∧
      (lttb_trans none 0 (some 1) 2 = .error .configurationError ∧
        feedLttb [(0, some 1), (5, some 2)] 2 = .error .configurationError) :=
  ⟨le_refl 2, lttb_trans_resolution_validation 0 1 2 [(5, some 2)] (le_refl 2)⟩

/-! ## C8 — Null skipping -/

/-- Claim C8: for both row-feed operations, a row with a missing value — and,
for `asap_trans`, a row with a missing timestamp (the `lttb_trans` timestamp
parameter is not optional in the source, so no such call exists for it) — is a
no-op: no error is raised and the existing state (in particular its point
count, or the absence of any state) is returned unchanged. -/
theorem trans_null_skipping :
    (∀ (state : Option LttbTrans) (time : Int) (resolution : Int),
      lttb_trans state time none resolution = .ok state) ∧
    (∀ (state : Option ASAPTransState) (ts : Option Int) (resolution : Int),
      asap_trans state ts none resolution = state) ∧
    (∀ (state : Option ASAPTransState) (val : Option ℚ) (resolution : Int),
      asap_trans state none val resolution = state) := by
  refine ⟨fun state time resolution => rfl, fun state ts resolution => ?_,
    fun state val resolution => ?_⟩
  · cases ts <;> rfl
  · cases val <;> rfl

/-! ## C10 — Resolution is read only at state creation -/

/-- Claim C10: for both transition functions, every call with an existing state
ignores the supplied resolution argument (the result is the same for any two
supplied resolutions) and stores the state's own resolution unchanged (the
result state is exactly the old state with the point appended). -/
theorem trans_resolution_frame :
    (∀ (s : LttbTrans) (time : Int) (val : Option ℚ) (r r' : Int),
      lttb_trans (some s) time val r = lttb_trans (some s) time val r') ∧
    (∀ (s : LttbTrans) (time : Int) (v : ℚ) (r : Int),
      lttb_trans (some s) time (some v) r
        = .ok (some ⟨s.series.add_point ⟨time, v⟩, s.resolution⟩)) ∧
    (∀ (s : ASAPTransState) (ts : Option Int) (val : Option ℚ) (r r' : Int),
      asap_trans (some s) ts val r = asap_trans (some s) ts val r') ∧
    (∀ (s : ASAPTransState) (t : Int) (v : ℚ) (r : Int),
      asap_trans (some s) (some t) (some v) r
        = some ⟨s.ts.add_point ⟨t, v⟩, s.resolution⟩) := by
  refine ⟨fun s time val r r' => ?_, fun s time v r => rfl,
    fun s ts val r r' => ?_, fun s t v r => rfl⟩
  · cases val <;> rfl
  · cases ts <;> cases val <;> rfl

/-! ## Execution lemmas for `find_downsample_interval` -/

/-- Length bookkeeping: the gap list has one gap less than there are points. -/
theorem gapsOf_length (points : List TSPoint) :
    (gapsOf points).length = points.length - 1 := by
  simp [gapsOf, List.length_zipWith]

/-- Run of the heuristic on the non-degenerate path. -/
theorem find_downsample_interval_run (series : ExplicitTimeSeries) (r : Int)
    (hord : series.ordered = true)
    (first last : TSPoint)
    (hfirst : series.points.head? = some first)
    (hlast : series.points.getLast? = some last)
    (hr : r ≠ 0) (m : Int)
    (hm : ((gapsOf series.points).insertionSort (· ≤ ·)).get?
      (((gapsOf series.points).insertionSort (· ≤ ·)).length / 2) = some m)
    (hm0 : m ≠ 0) :
    find_downsample_interval series r
      = .ok (((last.ts - first.ts).tdiv r).tdiv m * m) := by
  simp only [find_downsample_interval, hord, hfirst, hlast, hm, Bool.not_true,
    if_false, pure_bind, if_neg hr, if_neg hm0]
  rfl

/-- Run of the heuristic when the median gap is zero: the division-by-zero
panic of the source, embedded as an `invariantViolation` (if `resolution` is
itself zero the earlier candidate division panics, with the same outcome). -/
theorem find_downsample_interval_median_zero (series : ExplicitTimeSeries) (r : Int)
    (hord : series.ordered = true)
    (first last : TSPoint)
    (hfirst : series.points.head? = some first)
    (hlast : series.points.getLast? = some last)
    (hm : ((gapsOf series.points).insertionSort (· ≤ ·)).get?
      (((gapsOf series.points).insertionSort (· ≤ ·)).length / 2) = some 0) :
    find_downsample_interval series r = .error .invariantViolation := by
  by_cases hr : r = 0
  · simp only [find_downsample_interval, hord, hfirst, hlast, Bool.not_true,
      if_false, pure_bind, if_pos hr]
    rfl
  · simp only [find_downsample_interval, hord, hfirst, hlast, hm, Bool.not_true,
      if_false, pure_bind, if_neg hr, if_pos rfl]
    rfl

/-- Median access: the sorted gap list's `len / 2` entry is the `medianGap`. -/
theorem medianGap_get? (points : List TSPoint) (h : 2 ≤ points.length) :
    ((gapsOf points).insertionSort (· ≤ ·)).get?
      (((gapsOf points).insertionSort (· ≤ ·)).length / 2) = some (medianGap points) := by
  have hlen : ((gapsOf points).insertionSort (· ≤ ·)).length = (gapsOf points).length :=
    List.length_insertionSort _ _
  have hg : 1 ≤ (gapsOf points).length := by
    rw [gapsOf_length]; omega
  have hidx : (gapsOf points).length / 2 < ((gapsOf points).insertionSort (· ≤ ·)).length := by
    rw [hlen]; exact Nat.div_lt_self (by omega) one_lt_two
  rw [hlen, List.get?_eq_get hidx]
  congr 1
  rw [medianGap, List.getD_eq_getElem _ _ hidx, List.get_eq_getElem]

/-- Replicated lists are sorted for a reflexive order. -/
theorem sorted_le_replicate (n : Nat) (a : Int) :
    (List.replicate n a).Sorted (· ≤ ·) := by
  induction n with
  | zero => simp
  | succ k ih =>
    rw [List.replicate_succ]
    exact List.Pairwise.cons (fun b hb => (List.eq_of_mem_replicate hb).ge) ih

/-- Gap list of a uniformly spaced point sequence. -/
theorem gapsOf_uniform (n : Nat) (t0 d : Int) (f : Nat → ℚ) :
    gapsOf ((List.range n).map fun (j : Nat) => (⟨t0 + (j : Int) * d, f j⟩ : TSPoint))
      = List.replicate (n - 1) d := by
  apply List.ext_getElem
  · rw [gapsOf_length, List.length_replicate, List.length_map, List.length_range]
  · intro i h1 h2
    have hlen : (gapsOf ((List.range n).map
        fun (j : Nat) => (⟨t0 + (j : Int) * d, f j⟩ : TSPoint))).length = n - 1 := by
      rw [gapsOf_length]; simp
    rw [hlen] at h1
    have hi1 : i + 1 < n := by omega
    simp only [gapsOf, List.getElem_zipWith, List.getElem_replicate]
    rw [List.getElem_tail]
    simp only [List.getElem_map, List.getElem_range]
    push_cast
    ring

/-- Claim C2: for every sorted explicit series with at least 2 points and every
resolution ≥ 1, when the median gap is nonzero (the zero case panics, claim C6)
the heuristic returns `((last.ts - first.ts) / resolution) / median * median`
with truncating integer division, where `median` is the element at index
`len / 2` of the sorted gap list; and on a uniformly spaced series with gap `d`
the result is `((n-1)*d / r) / d * d`, a multiple of `d`. -/
theorem find_downsample_interval_formula :
    (∀ (series : ExplicitTimeSeries) (r : Int),
      series.ordered = true → series.points.Pairwise tsLE →
      2 ≤ series.points.length → 1 ≤ r → medianGap series.points ≠ 0 →
      find_downsample_interval series r
        = .ok ((((series.points.getLastD ⟨0, 0⟩).ts
              - (series.points.headD ⟨0, 0⟩).ts).tdiv r).tdiv
            (medianGap series.points) * medianGap series.points)) ∧
    (∀ (n : Nat) (t0 d r : Int) (f : Nat → ℚ),
      2 ≤ n → 1 ≤ d → 1 ≤ r →
      find_downsample_interval
          ⟨true, (List.range n).map fun (j : Nat) => ⟨t0 + (j : Int) * d, f j⟩⟩ r
        = .ok (((((n : Int) - 1) * d).tdiv r).tdiv d * d)) := by
  constructor
  · intro series r hord _hsorted hlen hr hm
    have hne : series.points ≠ [] := by
      intro h; rw [h] at hlen; simp at hlen
    have hhead : series.points.head? = some (series.points.headD ⟨0, 0⟩) := by
      rw [List.headD_eq_head?_getD]
      cases hc : series.points.head? with
      | none => exact absurd (List.head?_eq_none_iff.mp hc) hne
      | some p => rfl
    have hlast : series.points.getLast? = some (series.points.getLastD ⟨0, 0⟩) := by
      rw [List.getLastD_eq_getLast?]
      cases hc : series.points.getLast? with
      | none => exact absurd (List.getLast?_eq_none_iff.mp hc) hne
      | some p => rfl
    exact find_downsample_interval_run series r hord _ _ hhead hlast
      (by omega) _ (medianGap_get? series.points hlen) hm
  · intro n t0 d r f hn hd hr
    set pts : List TSPoint := (List.range n).map (fun (j : Nat) => ⟨t0 + (j : Int) * d, f j⟩) with hpts
    have hlenpts : pts.length = n := by simp [hpts]
    have hgaps : gapsOf pts = List.replicate (n - 1) d := gapsOf_uniform n t0 d f
    have hsortgaps : (gapsOf pts).insertionSort (· ≤ ·) = List.replicate (n - 1) d := by
      rw [hgaps]
      exact List.Sorted.insertionSort_eq (sorted_le_replicate (n - 1) d)
    have hmed : medianGap pts = d := by
      rw [medianGap, hsortgaps, hgaps, List.length_replicate]
      have : (n - 1) / 2 < n - 1 := Nat.div_lt_self (by omega) one_lt_two
      rw [List.getD_eq_getElem _ _ (by simpa using this), List.getElem_replicate]
    have hhead : pts.head? = some ⟨t0, f 0⟩ := by
      obtain ⟨m, rfl⟩ : ∃ m, n = m + 2 := ⟨n - 2, by omega⟩
      simp [hpts, List.range_succ_eq_map]
    have hlast : pts.getLast? = some ⟨t0 + ((n : Int) - 1) * d, f (n - 1)⟩ := by
      rw [List.getLast?_eq_getElem?, hlenpts]
      have h1 : n - 1 < n := by omega
      rw [List.getElem?_eq_getElem (by simpa [hpts] using h1)]
      simp only [hpts, List.getElem_map, List.getElem_range]
      congr 2
      push_cast [Nat.cast_sub (by omega : 1 ≤ n)]
      ring
    have hrun := find_downsample_interval_run ⟨true, pts⟩ r rfl _ _ hhead hlast
      (by omega) _ (by simpa using medianGap_get? pts (by omega)) (by simp [hmed]; omega)
    rw [hrun]
    simp only [hmed]
    congr 3
    ring_nf

/-- Witness for C2 at concrete inputs: a 3-point irregular series (gaps `[2,1]`,
median `2`) and a uniform 3-point series with gap 2 and resolution 5. -/
theorem find_downsample_interval_formula_witness :
    (([⟨0, 1⟩, ⟨2, 2⟩, ⟨3, 3⟩] : List TSPoint).Pairwise tsLE ∧
      medianGap [⟨0, 1⟩, ⟨2, 2⟩, ⟨3, 3⟩] ≠ 0 ∧
      find_downsample_interval ⟨true, [⟨0, 1⟩, ⟨2, 2⟩, ⟨3, 3⟩]⟩ 1
        = .ok ((((([⟨0, 1⟩, ⟨2, 2⟩, ⟨3, 3⟩] : List TSPoint).getLastD ⟨0, 0⟩).ts
              - (([⟨0, 1⟩, ⟨2, 2⟩, ⟨3, 3⟩] : List TSPoint).headD ⟨0, 0⟩).ts).tdiv 1).tdiv
            (medianGap [⟨0, 1⟩, ⟨2, 2⟩, ⟨3, 3⟩]) * medianGap [⟨0, 1⟩, ⟨2, 2⟩, ⟨3, 3⟩])) ∧
    find_downsample_interval
        ⟨true, (List.range 3).map fun (j : Nat) => ⟨0 + (j : Int) * 2, (fun _ => (0 : ℚ)) j⟩⟩ 5
      = .ok (((((3 : Int) - 1) * 2).tdiv 5).tdiv 2 * 2) := by
  refine ⟨⟨by decide, by decide, ?_⟩, ?_⟩
  · exact find_downsample_interval_formula.1 ⟨true, [⟨0, 1⟩, ⟨2, 2⟩, ⟨3, 3⟩]⟩ 1
      rfl (by decide) (by decide) (by decide) (by decide)
  · exact find_downsample_interval_formula.2 3 0 2 5 (fun _ => 0)
      (by decide) (by decide) (by decide)

/-! ## C6 — Non-positive median gap is reported, distinctly -/

/-- Sorted input has nonnegative gaps. -/
theorem gapsOf_nonneg (pts : List TSPoint) (h : pts.Pairwise tsLE) :
    ∀ x ∈ gapsOf pts, 0 ≤ x := by
  intro x hx
  rw [List.mem_iff_getElem] at hx
  obtain ⟨i, hi, rfl⟩ := hx
  have hg : (gapsOf pts).length = pts.length - 1 := gapsOf_length pts
  have hi1 : i + 1 < pts.length := by omega
  simp only [gapsOf, List.getElem_zipWith]
  rw [List.getElem_tail]
  have hle := List.pairwise_iff_get.mp h ⟨i, by omega⟩ ⟨i + 1, hi1⟩ (by simp)
  simp only [tsLE, List.get_eq_getElem] at hle
  omega

/-- Claim C6: on a sorted series of at least two points whose median gap is
non-positive, the heuristic reports the `invariantViolation` of the
specification's taxonomy (the embedded division-by-zero panic), which is
distinct from `insufficientData`. -/
theorem median_nonpositive_invariant_violation (series : ExplicitTimeSeries) (r : Int)
    (hord : series.ordered = true) (hsorted : series.points.Pairwise tsLE)
    (hlen : 2 ≤ series.points.length) (hm : medianGap series.points ≤ 0) :
    find_downsample_interval series r = .error .invariantViolation ∧
      (Except.error .invariantViolation : Except AggError Int)
        ≠ .error .insufficientData := by
  have hne : series.points ≠ [] := by
    intro h; rw [h] at hlen; simp at hlen
  have hhead : series.points.head? = some (series.points.headD ⟨0, 0⟩) := by
    rw [List.headD_eq_head?_getD]
    cases hc : series.points.head? with
    | none => exact absurd (List.head?_eq_none_iff.mp hc) hne
    | some p => rfl
  have hlast : series.points.getLast? = some (series.points.getLastD ⟨0, 0⟩) := by
    rw [List.getLastD_eq_getLast?]
    cases hc : series.points.getLast? with
    | none => exact absurd (List.getLast?_eq_none_iff.mp hc) hne
    | some p => rfl
  have hmem : medianGap series.points ∈ gapsOf series.points := by
    have hg : 1 ≤ (gapsOf series.points).length := by
      rw [gapsOf_length]; omega
    have hidx : (gapsOf series.points).length / 2
        < ((gapsOf series.points).insertionSort (· ≤ ·)).length := by
      rw [List.length_insertionSort]
      exact Nat.div_lt_self (by omega) one_lt_two
    have : medianGap series.points
        ∈ (gapsOf series.points).insertionSort (· ≤ ·) := by
      rw [medianGap, List.getD_eq_getElem _ _ hidx]
      exact List.getElem_mem hidx
    exact (List.perm_insertionSort (· ≤ ·) (gapsOf series.points)).mem_iff.mp this
  have hzero : medianGap series.points = 0 :=
    le_antisymm hm (gapsOf_nonneg series.points hsorted _ hmem)
  refine ⟨?_, by simp⟩
  have hget := medianGap_get? series.points hlen
  rw [hzero] at hget
  exact find_downsample_interval_median_zero series r hord _ _ hhead hlast hget

/-- Witness for C6 at a concrete input: duplicate timestamps make the median
gap zero. -/
theorem median_nonpositive_invariant_violation_witness :
    (([⟨0, 1⟩, ⟨0, 2⟩] : List TSPoint).Pairwise tsLE ∧
      medianGap [⟨0, 1⟩, ⟨0, 2⟩] ≤ 0) ∧
    (find_downsample_interval ⟨true, [⟨0, 1⟩, ⟨0, 2⟩]⟩ 7
        = .error .invariantViolation ∧
      (Except.error .invariantViolation : Except AggError Int)
        ≠ .error .insufficientData) :=
  ⟨⟨by decide, by decide⟩,
    median_nonpositive_invariant_violation ⟨true, [⟨0, 1⟩, ⟨0, 2⟩]⟩ 7
      rfl (by decide) (by decide) (by decide)⟩

/-! ## C5 — ASAP density branch requests the claimed width -/

/-- Claim C5: on a state holding an explicit series (with an in-range positive
resolution, so the `i32 as usize` cast is value-preserving), `asap_final`
requests normalization exactly at the width of `requestedWidth`: the §4.3
heuristic when the sorted point count is at least `2 × resolution`, and
`(last.ts - first.ts) / pointCount` otherwise, bypassing the heuristic. -/
theorem asap_final_width_request
    (dg : ExplicitTimeSeries → Int → GapfillMethod → Except TimeSeriesError NormalTimeSeries)
    (sm : List ℚ → Int → List ℚ)
    (state : ASAPTransState) (ser : ExplicitTimeSeries)
    (hser : state.ts = .Explicit ser)
    (hres : 0 < state.resolution) (hres31 : state.resolution < 2 ^ 31) :
    asap_final dg sm (some state)
      = (do
          let w ← requestedWidth ser.sort state.resolution
          let normal ← liftTSError (dg ser.sort w .Linear)
          let result ← asapTail sm state.resolution normal
          pure (some result)) := by
  have hmod : state.resolution % (2 : Int) ^ 64 = state.resolution := by
    apply Int.emod_eq_of_lt (le_of_lt hres)
    calc state.resolution < 2 ^ 31 := hres31
      _ < 2 ^ 64 := by norm_num
  have htn : state.resolution.toNat < 2 ^ 31 := by
    omega
  have hcast : 2 * usize_of_i32 state.resolution % 2 ^ 64
      = 2 * state.resolution.toNat := by
    unfold usize_of_i32
    rw [hmod]
    exact Nat.mod_eq_of_lt (by
      calc 2 * state.resolution.toNat < 2 * 2 ^ 31 := by omega
        _ ≤ 2 ^ 64 := by norm_num)
  have hcond : (2 * usize_of_i32 state.resolution % 2 ^ 64 ≤ ser.sort.points.length)
      ↔ (2 * state.resolution ≤ (ser.sort.points.length : Int)) := by
    rw [hcast]
    omega
  simp only [asap_final, hser, requestedWidth]
  by_cases hc : 2 * state.resolution ≤ (ser.sort.points.length : Int)
  · rw [if_pos (hcond.mpr hc), if_pos hc]
  · rw [if_neg (fun h => hc (hcond.mp h)), if_neg hc]

/-- Witness for C5 at a concrete input: a one-point ordered series, resolution
1, a stub normalizer and an identity smoother. -/
theorem asap_final_width_request_witness :
    ((⟨.Explicit ⟨true, [⟨0, 1⟩]⟩, 1⟩ : ASAPTransState).ts
        = .Explicit ⟨true, [⟨0, 1⟩]⟩ ∧
      (0 : Int) < 1 ∧ (1 : Int) < 2 ^ 31) ∧
    asap_final (fun _ _ _ => .ok ⟨0, 1, [1, 2]⟩) (fun v _ => v)
        (some ⟨.Explicit ⟨true, [⟨0, 1⟩]⟩, 1⟩)
      = (do
          let w ← requestedWidth (ExplicitTimeSeries.sort ⟨true, [⟨0, 1⟩]⟩) 1
          let normal ← liftTSError ((fun _ _ _ => .ok ⟨0, 1, [1, 2]⟩ :
            ExplicitTimeSeries → Int → GapfillMethod →
              Except TimeSeriesError NormalTimeSeries) (ExplicitTimeSeries.sort ⟨true, [⟨0, 1⟩]⟩) w .Linear)
          let result ← asapTail (fun v _ => v) 1 normal
          pure (some result)) :=
  ⟨⟨rfl, by norm_num, by norm_num⟩,
    asap_final_width_request (fun _ _ _ => .ok ⟨0, 1, [1, 2]⟩) (fun v _ => v)
      ⟨.Explicit ⟨true, [⟨0, 1⟩]⟩, 1⟩ ⟨true, [⟨0, 1⟩]⟩ rfl (by norm_num) (by norm_num)⟩

/-! ## Bucket-boundary arithmetic for the validated LTTB regime -/

/-- Denominator positivity for `every` in the regime `2 < threshold`. -/
theorem every_den_pos (T : Nat) (hT : 2 < T) : (0 : ℚ) < ((T - 2 : Nat) : ℚ) := by
  have : 1 ≤ T - 2 := by omega
  exact_mod_cast Nat.lt_of_lt_of_le Nat.zero_lt_one this

/-- The real bucket width is at least 1 when `threshold < data.length`. -/
theorem every_one_le (L T : Nat) (hT : 2 < T) (hL : T < L) :
    1 ≤ ((L - 2 : Nat) : ℚ) / ((T - 2 : Nat) : ℚ) := by
  rw [le_div_iff₀ (every_den_pos T hT), one_mul]
  exact_mod_cast Nat.sub_le_sub_right (le_of_lt hL) 2

/-- Consecutive bucket boundaries are strictly increasing when the width is at
least 1. -/
theorem bucketIdx_lt_succ (every : ℚ) (h1 : 1 ≤ every) (k : Nat) :
    bucketIdx every k < bucketIdx every (k + 1) := by
  have h0 : (0 : ℚ) ≤ (k : ℚ) * every :=
    mul_nonneg (Nat.cast_nonneg k) (le_trans zero_le_one h1)
  have hf0 : 0 ≤ ⌊(k : ℚ) * every⌋ := Int.floor_nonneg.mpr h0
  have hstep : ⌊(k : ℚ) * every⌋ + 1 ≤ ⌊((k + 1 : Nat) : ℚ) * every⌋ := by
    have : ((k : ℚ) * every + 1) ≤ ((k + 1 : Nat) : ℚ) * every := by
      push_cast
      nlinarith
    calc ⌊(k : ℚ) * every⌋ + 1 = ⌊(k : ℚ) * every + 1⌋ := (Int.floor_add_one _).symm
      _ ≤ ⌊((k + 1 : Nat) : ℚ) * every⌋ := Int.floor_le_floor this
  unfold bucketIdx
  omega

/-- Bucket boundaries are monotone in the bucket index. -/
theorem bucketIdx_mono (every : ℚ) (h1 : 1 ≤ every) {k m : Nat} (h : k ≤ m) :
    bucketIdx every k ≤ bucketIdx every m := by
  induction h with
  | refl => exact le_refl _
  | step h ih => exact le_trans ih (le_of_lt (bucketIdx_lt_succ every h1 _))

/-- The top boundary is exact: bucket `threshold - 2` starts at index
`data.length - 1`, because `(threshold-2) * every = data.length - 2` exactly. -/
theorem bucketIdx_top (L T : Nat) (hT : 2 < T) (hL : T < L) :
    bucketIdx (((L - 2 : Nat) : ℚ) / ((T - 2 : Nat) : ℚ)) (T - 2) = L - 1 := by
  unfold bucketIdx
  have hden := every_den_pos T hT
  have : ((T - 2 : Nat) : ℚ) * (((L - 2 : Nat) : ℚ) / ((T - 2 : Nat) : ℚ))
      = ((L - 2 : Nat) : ℚ) := mul_div_cancel₀ _ (ne_of_gt hden)
  rw [this, Int.floor_natCast]
  omega

/-- The source's selection loop always returns an index inside the scanned
half-open range, whenever that range is nonempty. -/
theorem selectInBucket_bounds (data : List TSPoint) (a : Nat) (avg : Int × ℚ)
    (offs hi : Nat) (h : offs < hi) :
    offs ≤ selectInBucket data a avg offs hi ∧
      selectInBucket data a avg offs hi < hi := by
  unfold selectInBucket
  exact List.foldlRecOn (motive := fun st : ℚ × Nat => offs ≤ st.2 ∧ st.2 < hi)
    (List.range (hi - offs))
    (fun st j =>
      let idx := offs + j
      let area := triangleArea (dAt data a) avg (dAt data idx)
      if st.1 < area then (area, idx) else st)
    ((-1 : ℚ), offs) ⟨le_refl offs, h⟩
    (fun st hst j hj => by
      simp only
      split
      · have hj' : j < hi - offs := List.mem_range.mp hj
        exact ⟨Nat.le_add_right _ _, by omega⟩
      · exact hst)

/-- Loop invariant of the LTTB bucket loop: starting strictly below the current
bucket's start, the selected indices form a strictly increasing chain that
stays strictly below the boundary after the last processed bucket, and one
index is produced per bucket. -/
theorem lttbLoopIdx_spec (data : List TSPoint) (every : ℚ) (h1 : 1 ≤ every) :
    ∀ (n i a : Nat), a < bucketIdx every i →
      (lttbLoopIdx data every a i n).length = n ∧
      List.Chain (· < ·) a (lttbLoopIdx data every a i n) ∧
      ∀ x ∈ lttbLoopIdx data every a i n, x < bucketIdx every (i + n) := by
  intro n
  induction n with
  | zero => intro i a _; exact ⟨rfl, List.Chain.nil, by simp [lttbLoopIdx]⟩
  | succ m ih =>
    intro i a ha
    have hnonempty : bucketIdx every i < bucketIdx every (i + 1) :=
      bucketIdx_lt_succ every h1 i
    obtain ⟨hlb, hub⟩ := selectInBucket_bounds data a (bucketAvg data every i)
      (bucketIdx every i) (bucketIdx every (i + 1)) hnonempty
    set next := selectInBucket data a (bucketAvg data every i)
      (bucketIdx every i) (bucketIdx every (i + 1)) with hnext
    obtain ⟨ihlen, ihchain, ihbound⟩ := ih (i + 1) next hub
    have hax : a < next := lt_of_lt_of_le ha hlb
    refine ⟨by simp [lttbLoopIdx, ← hnext, ihlen], ?_, ?_⟩
    · exact List.Chain.cons hax ihchain
    · intro x hx
      rw [show lttbLoopIdx data every a i (m + 1)
          = next :: lttbLoopIdx data every next (i + 1) m by
        simp [lttbLoopIdx, ← hnext]] at hx
      rcases List.mem_cons.mp hx with rfl | hx
      · exact lt_of_lt_of_le hub
          (bucketIdx_mono every h1 (by omega))
      · have := ihbound x hx
        exact lt_of_lt_of_le this (bucketIdx_mono every h1 (by omega))

/-- Point loop and index loop agree. -/
theorem lttbLoop_eq_map (data : List TSPoint) (every : ℚ) :
    ∀ (n i a : Nat), lttbLoop data every a i n
      = (lttbLoopIdx data every a i n).map (dAt data) := by
  intro n
  induction n with
  | zero => intro i a; rfl
  | succ m ih => intro i a; simp only [lttbLoop, lttbLoopIdx, List.map_cons, ih]

/-! ## C3 — LTTB output shape -/

/-- Timestamp monotonicity transfers from a strictly sorted input to its
indexed reads. -/
theorem dAt_strict_mono (data : List TSPoint) (hsorted : data.Pairwise tsLT)
    {i j : Nat} (hij : i < j) (hj : j < data.length) :
    tsLT (dAt data i) (dAt data j) := by
  have hi : i < data.length := lt_trans hij hj
  have h := List.pairwise_iff_get.mp hsorted ⟨i, hi⟩ ⟨j, hj⟩ (by simpa using hij)
  rw [List.get_eq_getElem, List.get_eq_getElem] at h
  unfold dAt
  rw [List.getD_eq_getElem _ _ hi, List.getD_eq_getElem _ _ hj]
  exact h

/-- Timestamp monotonicity transfers from a sorted input to its indexed
reads. -/
theorem dAt_le_mono (data : List TSPoint) (hsorted : data.Pairwise tsLE)
    {i j : Nat} (hij : i < j) (hj : j < data.length) :
    tsLE (dAt data i) (dAt data j) := by
  have hi : i < data.length := lt_trans hij hj
  have h := List.pairwise_iff_get.mp hsorted ⟨i, hi⟩ ⟨j, hj⟩ (by simpa using hij)
  rw [List.get_eq_getElem, List.get_eq_getElem] at h
  unfold dAt
  rw [List.getD_eq_getElem _ _ hi, List.getD_eq_getElem _ _ hj]
  exact h

/-- Amended claim C3: for every `data` sorted by timestamp (duplicates allowed,
as the data model permits after the stable sort) and `2 < threshold <
data.length`, the LTTB output has length exactly `threshold`, starts with
`data`'s first point, ends with its last point, and has nondecreasing
timestamps; the timestamps are strictly increasing whenever the input
timestamps are strictly increasing (with duplicate input timestamps strict
increase fails: see the counterexample). -/
theorem lttb_output_shape (data : List TSPoint) (threshold : Nat)
    (hsorted : data.Pairwise tsLE) (hT : 2 < threshold) (hL : threshold < data.length) :
    (lttb data threshold).length = threshold ∧
    (lttb data threshold).head? = data.head? ∧
    (lttb data threshold).getLast? = data.getLast? ∧
    (lttb data threshold).Pairwise tsLE ∧
    (data.Pairwise tsLT → (lttb data threshold).Pairwise tsLT) := by
  have hguard : ¬ (data.length ≤ threshold ∨ threshold = 0) := by omega
  have h1 : 1 ≤ ((data.length - 2 : Nat) : ℚ) / ((threshold - 2 : Nat) : ℚ) :=
    every_one_le data.length threshold hT hL
  have htop : bucketIdx (((data.length - 2 : Nat) : ℚ) / ((threshold - 2 : Nat) : ℚ))
      (threshold - 2) = data.length - 1 := bucketIdx_top data.length threshold hT hL
  obtain ⟨hlen, hchain, hbound⟩ :=
    lttbLoopIdx_spec data (((data.length - 2 : Nat) : ℚ) / ((threshold - 2 : Nat) : ℚ))
      h1 (threshold - 2) 0 0 (Nat.succ_pos _)
  set idxs := lttbLoopIdx data
    (((data.length - 2 : Nat) : ℚ) / ((threshold - 2 : Nat) : ℚ)) 0 0 (threshold - 2)
    with hidxs
  have hbound' : ∀ x ∈ idxs, x < data.length - 1 := by
    intro x hx
    have := hbound x hx
    rwa [Nat.zero_add, htop] at this
  have hexp : lttb data threshold
      = (dAt data 0 :: idxs.map (dAt data)) ++ [dAt data (data.length - 1)] := by
    simp only [lttb, lttbLoop_eq_map]
    rw [if_neg hguard]
  have hL4 : 4 ≤ data.length := by omega
  have hmapJ : lttb data threshold
      = ((0 :: idxs) ++ [data.length - 1]).map (dAt data) := by
    rw [hexp]; simp
  have hchainJ : List.Chain' (· < ·) ((0 :: idxs) ++ [data.length - 1]) := by
    rw [List.chain'_append]
    refine ⟨hchain, List.chain'_singleton _, ?_⟩
    intro x hx y hy
    have hy1 : y = data.length - 1 := by
      have := (by simpa using hy : data.length - 1 = y)
      omega
    subst hy1
    have hxmem : x ∈ 0 :: idxs := List.mem_of_mem_getLast? hx
    rcases List.mem_cons.mp hxmem with rfl | hxi
    · omega
    · exact hbound' x hxi
  have hpwJ : List.Pairwise (· < ·) ((0 :: idxs) ++ [data.length - 1]) :=
    List.chain'_iff_pairwise.mp hchainJ
  have hmemJ : ∀ x ∈ (0 :: idxs) ++ [data.length - 1], x < data.length := by
    intro x hx
    rcases List.mem_append.mp hx with hx | hx
    · rcases List.mem_cons.mp hx with rfl | hx
      · omega
      · have := hbound' x hx; omega
    · have : x = data.length - 1 := by simpa using hx
      omega
  refine ⟨?_, ?_, ?_, ?_, ?_⟩
  · rw [hexp]
    simp only [List.length_append, List.length_cons, List.length_map,
      List.length_nil, hlen]
    omega
  · rw [hexp]
    have h0 : 0 < data.length := by omega
    have hh : data.head? = some (dAt data 0) := by
      rw [List.head?_eq_getElem?, List.getElem?_eq_getElem h0]
      unfold dAt
      rw [List.getD_eq_getElem _ _ h0]
    rw [hh]
    rfl
  · rw [hexp, List.getLast?_concat]
    have hlast : data.length - 1 < data.length := by omega
    rw [List.getLast?_eq_getElem?, List.getElem?_eq_getElem hlast]
    unfold dAt
    rw [List.getD_eq_getElem _ _ hlast]
  · rw [hmapJ, List.pairwise_map]
    refine List.Pairwise.imp_of_mem ?_ hpwJ
    intro a b ha hb hab
    exact dAt_le_mono data hsorted hab (hmemJ b hb)
  · intro hstrict
    rw [hmapJ, List.pairwise_map]
    refine List.Pairwise.imp_of_mem ?_ hpwJ
    intro a b ha hb hab
    exact dAt_strict_mono data hstrict hab (hmemJ b hb)

/-- Witness for the amended C3 at a concrete input. -/
theorem lttb_output_shape_witness :
    (([⟨0, 0⟩, ⟨1, 10⟩, ⟨2, 0⟩, ⟨3, 10⟩, ⟨4, 0⟩] : List TSPoint).Pairwise tsLE ∧
      2 < 3 ∧ 3 < ([⟨0, 0⟩, ⟨1, 10⟩, ⟨2, 0⟩, ⟨3, 10⟩, ⟨4, 0⟩] : List TSPoint).length) ∧
    ((lttb [⟨0, 0⟩, ⟨1, 10⟩, ⟨2, 0⟩, ⟨3, 10⟩, ⟨4, 0⟩] 3).length = 3 ∧
      (lttb [⟨0, 0⟩, ⟨1, 10⟩, ⟨2, 0⟩, ⟨3, 10⟩, ⟨4, 0⟩] 3).head?
        = ([⟨0, 0⟩, ⟨1, 10⟩, ⟨2, 0⟩, ⟨3, 10⟩, ⟨4, 0⟩] : List TSPoint).head? ∧
      (lttb [⟨0, 0⟩, ⟨1, 10⟩, ⟨2, 0⟩, ⟨3, 10⟩, ⟨4, 0⟩] 3).getLast?
        = ([⟨0, 0⟩, ⟨1, 10⟩, ⟨2, 0⟩, ⟨3, 10⟩, ⟨4, 0⟩] : List TSPoint).getLast? ∧
      (lttb [⟨0, 0⟩, ⟨1, 10⟩, ⟨2, 0⟩, ⟨3, 10⟩, ⟨4, 0⟩] 3).Pairwise tsLE ∧
      (([⟨0, 0⟩, ⟨1, 10⟩, ⟨2, 0⟩, ⟨3, 10⟩, ⟨4, 0⟩] : List TSPoint).Pairwise tsLT →
        (lttb [⟨0, 0⟩, ⟨1, 10⟩, ⟨2, 0⟩, ⟨3, 10⟩, ⟨4, 0⟩] 3).Pairwise tsLT)) :=
  ⟨⟨by decide, by decide, by decide⟩,
    lttb_output_shape [⟨0, 0⟩, ⟨1, 10⟩, ⟨2, 0⟩, ⟨3, 10⟩, ⟨4, 0⟩] 3
      (by decide) (by decide) (by decide)⟩

/-- Counterexample to C3 as stated: the input below is sorted (nondecreasing
timestamps, as the data model allows after the stable sort), `threshold = 3` is
valid, yet the output's timestamps are not strictly increasing because the
selected interior point shares its timestamp with the first point. -/
theorem lttb_strict_increase_counterexample :
    (([⟨0, 0⟩, ⟨0, 10⟩, ⟨5, 1⟩, ⟨10, 0⟩] : List TSPoint).Pairwise tsLE ∧
      2 < 3 ∧ 3 < ([⟨0, 0⟩, ⟨0, 10⟩, ⟨5, 1⟩, ⟨10, 0⟩] : List TSPoint).length) ∧
    lttb [⟨0, 0⟩, ⟨0, 10⟩, ⟨5, 1⟩, ⟨10, 0⟩] 3 = [⟨0, 0⟩, ⟨0, 10⟩, ⟨10, 0⟩] ∧
    ¬ (lttb [⟨0, 0⟩, ⟨0, 10⟩, ⟨5, 1⟩, ⟨10, 0⟩] 3).Pairwise tsLT := by
  exact ⟨⟨by decide, by decide, by decide⟩,
    by with_unfolding_all decide, by with_unfolding_all decide⟩

/-! ## C9 — Order independence -/

/-- Appending preserves the ordered-implies-sorted invariant. -/
theorem orderedOk_add_point (e : ExplicitTimeSeries) (p : TSPoint)
    (h : OrderedOk e) : OrderedOk (e.add_point p) := by
  intro hord
  simp only [ExplicitTimeSeries.add_point, Bool.and_eq_true] at hord
  obtain ⟨he, hcmp⟩ := hord
  have hch := h he
  show List.Chain' tsLE (e.points ++ [p])
  rw [List.chain'_append]
  refine ⟨hch, List.chain'_singleton _, ?_⟩
  intro x hx y hy
  have hy1 : y = p := by
    have h' : p = y := by simpa using hy
    exact h'.symm
  subst hy1
  have hsome : e.points.getLast? = some x := hx
  rw [hsome] at hcmp
  simpa [tsLE] using of_decide_eq_true hcmp

/-- Folding appends preserves the invariant. -/
theorem orderedOk_foldl (ps : List TSPoint) :
    ∀ (e : ExplicitTimeSeries), OrderedOk e →
      OrderedOk (ps.foldl ExplicitTimeSeries.add_point e) := by
  induction ps with
  | nil => intro e h; exact h
  | cons p ps ih => intro e h; exact ih _ (orderedOk_add_point e p h)

/-- Folding `add_point` over the tagged union stays in the explicit variant. -/
theorem internal_foldl_explicit (ps : List TSPoint) :
    ∀ (e : ExplicitTimeSeries),
      ps.foldl InternalTimeSeries.add_point (.Explicit e)
        = .Explicit (ps.foldl ExplicitTimeSeries.add_point e) := by
  induction ps with
  | nil => intro e; rfl
  | cons p ps ih => intro e; exact ih (e.add_point p)

/-- Folding appends concatenates the points in arrival order. -/
theorem foldl_add_point_points (ps : List TSPoint) :
    ∀ (e : ExplicitTimeSeries),
      (ps.foldl ExplicitTimeSeries.add_point e).points = e.points ++ ps := by
  induction ps with
  | nil => intro e; simp
  | cons p ps ih =>
    intro e
    rw [List.foldl_cons, ih]
    simp [ExplicitTimeSeries.add_point]

/-- The sort step always leaves the `ordered` flag set. -/
theorem sort_ordered (e : ExplicitTimeSeries) : (e.sort).ordered = true := by
  unfold ExplicitTimeSeries.sort
  split
  · assumption
  · rfl

/-- The sort step's points are sorted by timestamp, given the invariant. -/
theorem sort_points_sorted (e : ExplicitTimeSeries) (h : OrderedOk e) :
    (e.sort).points.Sorted tsLE := by
  unfold ExplicitTimeSeries.sort
  split
  · exact List.chain'_iff_pairwise.mp (h (by assumption))
  · exact List.sorted_insertionSort tsLE e.points

/-- The sort step permutes the points. -/
theorem sort_points_perm (e : ExplicitTimeSeries) : (e.sort).points.Perm e.points := by
  unfold ExplicitTimeSeries.sort
  split
  · exact List.Perm.refl _
  · exact List.perm_insertionSort tsLE e.points

/-- Sorted lists that are permutations of each other and have pairwise-distinct
timestamps coincide. -/
theorem sorted_perm_distinct_eq {l₁ l₂ : List TSPoint}
    (hperm : l₁.Perm l₂) (hs₁ : l₁.Sorted tsLE) (hs₂ : l₂.Sorted tsLE)
    (hd : l₁.Pairwise fun a b => a.ts ≠ b.ts) : l₁ = l₂ := by
  have hsym : Symmetric (fun a b : TSPoint => a.ts ≠ b.ts) := fun a b h => h.symm
  have hd₂ : l₂.Pairwise (fun a b => a.ts ≠ b.ts) := (hperm.pairwise_iff fun h => Ne.symm h).mp hd
  have hlt₁ : l₁.Sorted tsLT := by
    have := hs₁.and hd
    exact this.imp fun hab => lt_of_le_of_ne hab.1 hab.2
  have hlt₂ : l₂.Sorted tsLT := by
    have := hs₂.and hd₂
    exact this.imp fun hab => lt_of_le_of_ne hab.1 hab.2
  exact List.eq_of_perm_of_sorted hperm hlt₁ hlt₂

/-- Two accumulations of permuted point multisets with distinct timestamps sort
to the same series. -/
theorem sort_eq_of_perm (e₁ e₂ : ExplicitTimeSeries)
    (h₁ : OrderedOk e₁) (h₂ : OrderedOk e₂) (hperm : e₁.points.Perm e₂.points)
    (hd : e₁.points.Pairwise fun a b => a.ts ≠ b.ts) : e₁.sort = e₂.sort := by
  have hsym : Symmetric (fun a b : TSPoint => a.ts ≠ b.ts) := fun a b h => h.symm
  have hp : (e₁.sort).points.Perm (e₂.sort).points :=
    (sort_points_perm e₁).trans (hperm.trans (sort_points_perm e₂).symm)
  have hd' : (e₁.sort).points.Pairwise (fun a b => a.ts ≠ b.ts) :=
    ((sort_points_perm e₁).pairwise_iff fun h => Ne.symm h).mpr hd
  have hpts : (e₁.sort).points = (e₂.sort).points :=
    sorted_perm_distinct_eq hp (sort_points_sorted e₁ h₁) (sort_points_sorted e₂ h₂) hd'
  calc e₁.sort = ⟨(e₁.sort).ordered, (e₁.sort).points⟩ := rfl
    _ = ⟨(e₂.sort).ordered, (e₂.sort).points⟩ := by
        rw [sort_ordered e₁, sort_ordered e₂, hpts]
    _ = e₂.sort := rfl

/-- Feeding rows onto an existing LTTB state never errors and just appends the
kept points, preserving the stored resolution. -/
theorem lttb_fold_some (resolution : Int) :
    ∀ (rows : List (Int × Option ℚ)) (s : LttbTrans),
      rows.foldlM (fun st row => lttb_trans st row.1 row.2 resolution) (some s)
        = .ok (some ⟨(keptLttb rows).foldl InternalTimeSeries.add_point s.series,
            s.resolution⟩) := by
  intro rows
  induction rows with
  | nil => intro s; rfl
  | cons row rows ih =>
    intro s
    obtain ⟨t, v⟩ := row
    cases v with
    | none =>
      rw [List.foldlM_cons]
      show (Except.ok (some s) >>= fun st =>
        rows.foldlM (fun st row => lttb_trans st row.1 row.2 resolution) st) = _
      rw [show (Except.ok (some s) >>= fun st =>
          rows.foldlM (fun st row => lttb_trans st row.1 row.2 resolution) st)
          = rows.foldlM (fun st row => lttb_trans st row.1 row.2 resolution) (some s)
        from rfl, ih s]
      simp [keptLttb]
    | some v =>
      rw [List.foldlM_cons]
      show (lttb_trans (some s) t (some v) resolution >>= fun st =>
        rows.foldlM (fun st row => lttb_trans st row.1 row.2 resolution) st) = _
      rw [show lttb_trans (some s) t (some v) resolution
          = .ok (some ⟨s.series.add_point ⟨t, v⟩, s.resolution⟩) from rfl]
      rw [show ((Except.ok (some (⟨s.series.add_point ⟨t, v⟩, s.resolution⟩ : LttbTrans))
            : Except AggError (Option LttbTrans)) >>= fun st =>
          rows.foldlM (fun st row => lttb_trans st row.1 row.2 resolution) st)
          = rows.foldlM (fun st row => lttb_trans st row.1 row.2 resolution)
              (some ⟨s.series.add_point ⟨t, v⟩, s.resolution⟩) from rfl]
      rw [ih ⟨s.series.add_point ⟨t, v⟩, s.resolution⟩]
      simp [keptLttb]

/-- Characterization of the whole LTTB feeding phase from the absent state. -/
theorem feedLttb_char (rows : List (Int × Option ℚ)) (r : Int) :
    feedLttb rows r
      = if keptLttb rows = [] then .ok none
        else if r ≤ 2 then .error .configurationError
        else .ok (some ⟨(keptLttb rows).foldl InternalTimeSeries.add_point
            new_explicit_series, r.toNat⟩) := by
  induction rows with
  | nil => rfl
  | cons row rows ih =>
    obtain ⟨t, v⟩ := row
    cases v with
    | none =>
      show (lttb_trans none t none r >>= fun st =>
        rows.foldlM (fun st row => lttb_trans st row.1 row.2 r) st) = _
      rw [show lttb_trans none t none r = .ok none from rfl]
      rw [show ((Except.ok none : Except AggError (Option LttbTrans)) >>= fun st =>
          rows.foldlM (fun st row => lttb_trans st row.1 row.2 r) st)
          = feedLttb rows r from rfl, ih]
      simp [keptLttb, List.filterMap_cons]
    | some v =>
      have hkept : keptLttb ((t, some v) :: rows) = ⟨t, v⟩ :: keptLttb rows := by
        simp [keptLttb]
      by_cases hr : r ≤ 2
      · have herr : lttb_trans none t (some v) r = .error .configurationError := by
          simp only [lttb_trans]
          rw [if_pos hr]
          rfl
        have hfeed : feedLttb ((t, some v) :: rows) r
            = .error .configurationError := by
          show ((t, some v) :: rows).foldlM
            (fun st row => lttb_trans st row.1 row.2 r) none = _
          rw [List.foldlM_cons, herr]
          rfl
        rw [hfeed, hkept, if_neg (by simp), if_pos hr]
      · show (lttb_trans none t (some v) r >>= fun st =>
          rows.foldlM (fun st row => lttb_trans st row.1 row.2 r) st) = _
        have hcreate : lttb_trans none t (some v) r
            = .ok (some ⟨new_explicit_series.add_point ⟨t, v⟩, r.toNat⟩) := by
          simp only [lttb_trans]
          rw [if_neg hr]
          rfl
        rw [hcreate]
        rw [show ((Except.ok (some (⟨new_explicit_series.add_point ⟨t, v⟩, r.toNat⟩
              : LttbTrans)) : Except AggError (Option LttbTrans)) >>= fun st =>
            rows.foldlM (fun st row => lttb_trans st row.1 row.2 r) st)
            = rows.foldlM (fun st row => lttb_trans st row.1 row.2 r)
                (some ⟨new_explicit_series.add_point ⟨t, v⟩, r.toNat⟩) from rfl]
        rw [lttb_fold_some r rows ⟨new_explicit_series.add_point ⟨t, v⟩, r.toNat⟩]
        rw [hkept]
        rw [if_neg (by simp), if_neg hr]
        rfl

/-- Feeding rows onto an existing ASAP state just appends the kept points. -/
theorem asap_fold_some (resolution : Int) :
    ∀ (rows : List (Option Int × Option ℚ)) (s : ASAPTransState),
      rows.foldl (fun st row => asap_trans st row.1 row.2 resolution) (some s)
        = some ⟨(keptAsap rows).foldl InternalTimeSeries.add_point s.ts,
            s.resolution⟩ := by
  intro rows
  induction rows with
  | nil => intro s; rfl
  | cons row rows ih =>
    intro s
    obtain ⟨t, v⟩ := row
    match t, v with
    | none, none => rw [List.foldl_cons]; exact ih s
    | none, some v => rw [List.foldl_cons]; exact ih s
    | some t, none => rw [List.foldl_cons]; exact ih s
    | some t, some v =>
      rw [List.foldl_cons]
      show rows.foldl (fun st row => asap_trans st row.1 row.2 resolution)
        (some ⟨s.ts.add_point ⟨t, v⟩, s.resolution⟩) = _
      rw [ih ⟨s.ts.add_point ⟨t, v⟩, s.resolution⟩]
      simp [keptAsap]

/-- Characterization of the whole ASAP feeding phase from the absent state. -/
theorem feedAsap_char (rows : List (Option Int × Option ℚ)) (r : Int) :
    feedAsap rows r
      = if keptAsap rows = [] then none
        else some ⟨(keptAsap rows).foldl InternalTimeSeries.add_point
            new_explicit_series, r⟩ := by
  induction rows with
  | nil => rfl
  | cons row rows ih =>
    obtain ⟨t, v⟩ := row
    match t, v with
    | none, none => show feedAsap rows r = _; rw [ih]; simp [keptAsap, List.filterMap_cons]
    | none, some v => show feedAsap rows r = _; rw [ih]; simp [keptAsap, List.filterMap_cons]
    | some t, none => show feedAsap rows r = _; rw [ih]; simp [keptAsap, List.filterMap_cons]
    | some t, some v =>
      show rows.foldl (fun st row => asap_trans st row.1 row.2 r)
        (some ⟨.Explicit ⟨true, [⟨t, v⟩]⟩, r⟩) = _
      rw [asap_fold_some r rows ⟨.Explicit ⟨true, [⟨t, v⟩]⟩, r⟩]
      have hkept : keptAsap ((some t, some v) :: rows) = ⟨t, v⟩ :: keptAsap rows := by
        simp [keptAsap]
      rw [hkept, if_neg (by simp)]
      rfl

/-- Amended claim C9: feeding the same multiset of rows in any permutation and
finalizing produces identical output for both aggregates, provided the kept
rows have pairwise-distinct timestamps (with duplicate timestamps the stable
sort preserves arrival order, so permutations can differ: see the
counterexample). -/
theorem order_independence_distinct_ts :
    (∀ (rows₁ rows₂ : List (Int × Option ℚ)) (r : Int),
      rows₁.Perm rows₂ →
      (keptLttb rows₁).Pairwise (fun a b => a.ts ≠ b.ts) →
      lttbPipeline rows₁ r = lttbPipeline rows₂ r) ∧
    (∀ (dg : ExplicitTimeSeries → Int → GapfillMethod →
        Except TimeSeriesError NormalTimeSeries)
      (sm : List ℚ → Int → List ℚ)
      (rows₁ rows₂ : List (Option Int × Option ℚ)) (r : Int),
      rows₁.Perm rows₂ →
      (keptAsap rows₁).Pairwise (fun a b => a.ts ≠ b.ts) →
      asapPipeline dg sm rows₁ r = asapPipeline dg sm rows₂ r) := by
  have hOk : OrderedOk (⟨true, []⟩ : ExplicitTimeSeries) := fun _ => List.chain'_nil
  constructor
  · intro rows₁ rows₂ r hperm hd
    have hkperm : (keptLttb rows₁).Perm (keptLttb rows₂) := hperm.filterMap _
    unfold lttbPipeline
    rw [feedLttb_char, feedLttb_char]
    by_cases hke : keptLttb rows₁ = []
    · have hke₂ : keptLttb rows₂ = [] := by
        have := hkperm.length_eq
        rw [hke] at this
        exact List.length_eq_zero.mp this.symm
      rw [if_pos hke, if_pos hke₂]
    · have hke₂ : keptLttb rows₂ ≠ [] := by
        intro h
        apply hke
        have := hkperm.length_eq
        rw [h] at this
        exact List.length_eq_zero.mp this
      rw [if_neg hke, if_neg hke₂]
      by_cases hr : r ≤ 2
      · rw [if_pos hr, if_pos hr]
      · rw [if_neg hr, if_neg hr]
        simp only [new_explicit_series]
        rw [internal_foldl_explicit (keptLttb rows₁) ⟨true, []⟩,
          internal_foldl_explicit (keptLttb rows₂) ⟨true, []⟩]
        have h₁ : OrderedOk ((keptLttb rows₁).foldl ExplicitTimeSeries.add_point
            ⟨true, []⟩) := orderedOk_foldl _ _ hOk
        have h₂ : OrderedOk ((keptLttb rows₂).foldl ExplicitTimeSeries.add_point
            ⟨true, []⟩) := orderedOk_foldl _ _ hOk
        have hp : ((keptLttb rows₁).foldl ExplicitTimeSeries.add_point
            ⟨true, []⟩).points.Perm
              ((keptLttb rows₂).foldl ExplicitTimeSeries.add_point ⟨true, []⟩).points := by
          rw [foldl_add_point_points, foldl_add_point_points]
          simpa using hkperm
        have hdp : ((keptLttb rows₁).foldl ExplicitTimeSeries.add_point
            ⟨true, []⟩).points.Pairwise (fun a b => a.ts ≠ b.ts) := by
          rw [foldl_add_point_points]
          simpa using hd
        have hsort := sort_eq_of_perm _ _ h₁ h₂ hp hdp
        simp only [Except.map, lttb_final, InternalTimeSeries.sort, hsort]
  · intro dg sm rows₁ rows₂ r hperm hd
    have hkperm : (keptAsap rows₁).Perm (keptAsap rows₂) := hperm.filterMap _
    unfold asapPipeline
    rw [feedAsap_char, feedAsap_char]
    by_cases hke : keptAsap rows₁ = []
    · have hke₂ : keptAsap rows₂ = [] := by
        have := hkperm.length_eq
        rw [hke] at this
        exact List.length_eq_zero.mp this.symm
      rw [if_pos hke, if_pos hke₂]
    · have hke₂ : keptAsap rows₂ ≠ [] := by
        intro h
        apply hke
        have := hkperm.length_eq
        rw [h] at this
        exact List.length_eq_zero.mp this
      rw [if_neg hke, if_neg hke₂]
      simp only [new_explicit_series]
      rw [internal_foldl_explicit (keptAsap rows₁) ⟨true, []⟩,
        internal_foldl_explicit (keptAsap rows₂) ⟨true, []⟩]
      have h₁ : OrderedOk ((keptAsap rows₁).foldl ExplicitTimeSeries.add_point
          ⟨true, []⟩) := orderedOk_foldl _ _ hOk
      have h₂ : OrderedOk ((keptAsap rows₂).foldl ExplicitTimeSeries.add_point
          ⟨true, []⟩) := orderedOk_foldl _ _ hOk
      have hp : ((keptAsap rows₁).foldl ExplicitTimeSeries.add_point
          ⟨true, []⟩).points.Perm
            ((keptAsap rows₂).foldl ExplicitTimeSeries.add_point ⟨true, []⟩).points := by
        rw [foldl_add_point_points, foldl_add_point_points]
        simpa using hkperm
      have hdp : ((keptAsap rows₁).foldl ExplicitTimeSeries.add_point
          ⟨true, []⟩).points.Pairwise (fun a b => a.ts ≠ b.ts) := by
        rw [foldl_add_point_points]
        simpa using hd
      have hsort := sort_eq_of_perm _ _ h₁ h₂ hp hdp
      simp only [asap_final, hsort]

/-- Counterexample to C9 as stated: two rows sharing a timestamp, fed in the
two possible orders with resolution 3, produce different LTTB outputs (the
stable sort keeps arrival order among equal timestamps, and the passthrough
branch returns the points as stored). -/
theorem order_independence_counterexample :
    ([((0 : Int), some (1 : ℚ)), (0, some 2)] : List (Int × Option ℚ)).Perm
        [(0, some 2), (0, some 1)] ∧
    lttbPipeline [(0, some 1), (0, some 2)] 3
      = .ok (some ⟨2, [⟨0, 1⟩, ⟨0, 2⟩]⟩) ∧
    lttbPipeline [(0, some 2), (0, some 1)] 3
      = .ok (some ⟨2, [⟨0, 2⟩, ⟨0, 1⟩]⟩) ∧
    (some (⟨2, [⟨0, 1⟩, ⟨0, 2⟩]⟩ : SortedSeriesOutput))
      ≠ some ⟨2, [⟨0, 2⟩, ⟨0, 1⟩]⟩ := by
  refine ⟨by decide, by with_unfolding_all rfl, by with_unfolding_all rfl, by decide⟩

/-- Witness for the amended C9 at concrete inputs with distinct timestamps. -/
theorem order_independence_distinct_ts_witness :
    (([((0 : Int), some (1 : ℚ)), (1, some 2)] : List (Int × Option ℚ)).Perm
        [(1, some 2), (0, some 1)] ∧
      (keptLttb [(0, some 1), (1, some 2)]).Pairwise (fun a b => a.ts ≠ b.ts) ∧
      lttbPipeline [(0, some 1), (1, some 2)] 3
        = lttbPipeline [(1, some 2), (0, some 1)] 3) ∧
    (([(some (0 : Int), some (1 : ℚ)), (some 1, some 2)] :
        List (Option Int × Option ℚ)).Perm [(some 1, some 2), (some 0, some 1)] ∧
      (keptAsap [(some 0, some 1), (some 1, some 2)]).Pairwise
        (fun a b => a.ts ≠ b.ts) ∧
      asapPipeline (fun _ w _ => .ok ⟨0, w, [1, 2]⟩) (fun v _ => v)
          [(some 0, some 1), (some 1, some 2)] 3
        = asapPipeline (fun _ w _ => .ok ⟨0, w, [1, 2]⟩) (fun v _ => v)
            [(some 1, some 2), (some 0, some 1)] 3) :=
  ⟨⟨by decide, by decide,
      order_independence_distinct_ts.1 [(0, some 1), (1, some 2)]
        [(1, some 2), (0, some 1)] 3 (by decide) (by decide)⟩,
    ⟨by decide, by decide,
      order_independence_distinct_ts.2 (fun _ w _ => .ok ⟨0, w, [1, 2]⟩) (fun v _ => v)
        [(some 0, some 1), (some 1, some 2)] [(some 1, some 2), (some 0, some 1)] 3
        (by decide) (by decide)⟩⟩

/-! ## C1 — Per-bucket refinement of the LTTB loop against the spec wording -/

/-- Slices of in-range indices are index maps. -/
theorem slice_eq_map (data : List TSPoint) (start k : Nat)
    (h : start + k ≤ data.length) :
    (data.drop start).take k = (List.range' start k).map (dAt data) := by
  apply List.ext_getElem
  · simp
    omega
  · intro i h1 h2
    have hik : i < k := by
      have h1' := h1
      simp at h1'
      omega
    have hidx : start + i < data.length := by omega
    rw [List.getElem_take, List.getElem_drop, List.getElem_map, List.getElem_range']
    simp only [one_mul, dAt]
    rw [List.getD_eq_getElem _ _ (show start + i < data.length from hidx)]

/-- The accumulation loop of the source computes the slice sums. -/
theorem avgSums_eq (data : List TSPoint) (start : Nat) :
    ∀ (len : Nat), start + len ≤ data.length →
      avgSums data start len
        = ((((data.drop start).take len).map TSPoint.ts).sum,
            (((data.drop start).take len).map TSPoint.val).sum) := by
  intro len
  induction len with
  | zero => intro _; rfl
  | succ m ih =>
    intro h
    have hm : start + m ≤ data.length := by omega
    have hsm : start + m < data.length := by omega
    have hmd : m < (data.drop start).length := by simp; omega
    unfold avgSums
    rw [List.range_succ, List.foldl_append]
    have := ih hm
    unfold avgSums at this
    rw [this]
    rw [List.take_succ, List.getElem?_eq_getElem hmd]
    simp only [List.foldl_cons, List.foldl_nil, Option.toList_some, List.map_append,
      List.sum_append, List.map_cons, List.map_nil, List.sum_cons, List.sum_nil]
    rw [List.getElem_drop]
    have : dAt data (start + m) = data[start + m] := by
      unfold dAt
      rw [List.getD_eq_getElem _ _ hsm]
    rw [this]
    simp [add_comm]

/-- The next-bucket average of the source equals the spec-side average point of
the next bucket's slice. -/
theorem bucketAvg_eq_spec (data : List TSPoint) (every : ℚ) (i : Nat)
    (hstart : bucketIdx every (i + 1) ≤ data.length)
    (hmono : bucketIdx every (i + 1) ≤ bucketIdx every (i + 2)) :
    bucketAvg data every i = specAvgPoint (specBucket data every (i + 1)) := by
  simp only [bucketAvg, specAvgPoint, specBucket]
  by_cases hcl : data.length ≤ bucketIdx every (i + 2)
  · rw [if_pos hcl]
    have htake : (data.drop (bucketIdx every (i + 1))).take
        (bucketIdx every (i + 2) - bucketIdx every (i + 1))
        = (data.drop (bucketIdx every (i + 1))).take
            (data.length - bucketIdx every (i + 1)) := by
      rw [List.take_of_length_le (by simp; omega),
        List.take_of_length_le (by simp)]
    rw [htake]
    have hsums := avgSums_eq data (bucketIdx every (i + 1))
      (data.length - bucketIdx every (i + 1)) (by omega)
    rw [hsums]
    have hlen : ((data.drop (bucketIdx every (i + 1))).take
        (data.length - bucketIdx every (i + 1))).length
        = data.length - bucketIdx every (i + 1) := by
      simp
    rw [hlen]
  · rw [if_neg hcl]
    have hsums := avgSums_eq data (bucketIdx every (i + 1))
      (bucketIdx every (i + 2) - bucketIdx every (i + 1)) (by omega)
    rw [hsums]
    have hlen : ((data.drop (bucketIdx every (i + 1))).take
        (bucketIdx every (i + 2) - bucketIdx every (i + 1))).length
        = bucketIdx every (i + 2) - bucketIdx every (i + 1) := by
      simp
      omega
    rw [hlen]

/-- The source's area expression equals the spec's cross-product formula. -/
theorem triangleArea_eq_spec (pa p : TSPoint) (avg : Int × ℚ) :
    triangleArea pa avg p = specTriangleArea pa p avg := by
  unfold triangleArea specTriangleArea
  congr 1
  rw [show ((pa.ts - avg.1 : Int) : ℚ) * (p.val - pa.val)
      - ((pa.ts - p.ts : Int) : ℚ) * (avg.2 - pa.val)
      = ((p.ts - pa.ts : Int) : ℚ) * (avg.2 - pa.val)
        - ((avg.1 - pa.ts : Int) : ℚ) * (p.val - pa.val) by push_cast; ring]

/-- Bridge between the source's `(max_area, index)` fold and the spec's
first-seen-wins fold over the candidate points. -/
theorem foldl_max_bridge (f : TSPoint → ℚ) (P : Nat → TSPoint) :
    ∀ (js : List Nat) (b : Nat),
      (js.map P).foldl (fun best q => if f best < f q then q else best) (P b)
        = P ((js.foldl (fun st j => if st.1 < f (P j) then (f (P j), j) else st)
            (f (P b), b)).2) := by
  intro js
  induction js with
  | nil => intro b; rfl
  | cons j js ih =>
    intro b
    rw [List.map_cons, List.foldl_cons, List.foldl_cons]
    by_cases hc : f (P b) < f (P j)
    · rw [if_pos hc, if_pos hc]
      exact ih j
    · rw [if_neg hc, if_neg hc]
      exact ih b

/-- The source's selection over a nonempty in-range bucket picks exactly the
spec's first area-maximal point of the bucket slice. -/
theorem select_eq_spec (data : List TSPoint) (avg : Int × ℚ) (a offs hi : Nat)
    (hlt : offs < hi) (hhi : hi ≤ data.length) :
    dAt data (selectInBucket data a avg offs hi)
      = (firstMaxBy (fun p => specTriangleArea (dAt data a) p avg)
          ((data.drop offs).take (hi - offs))).getD (dAt data a) := by
  obtain ⟨m, hm⟩ : ∃ m, hi - offs = m + 1 := ⟨hi - offs - 1, by omega⟩
  have hslice : (data.drop offs).take (hi - offs)
      = (List.range' offs (hi - offs)).map (dAt data) :=
    slice_eq_map data offs (hi - offs) (by omega)
  have hrange : List.range' offs (hi - offs) = offs :: List.range' (offs + 1) m := by
    rw [hm, List.range'_succ]
  have harea : ∀ q : TSPoint, specTriangleArea (dAt data a) q avg
      = triangleArea (dAt data a) avg q := fun q => (triangleArea_eq_spec _ q avg).symm
  rw [hslice, hrange, List.map_cons]
  unfold firstMaxBy
  simp only [Option.getD_some]
  have hfun : (fun (best q : TSPoint) =>
      if specTriangleArea (dAt data a) best avg < specTriangleArea (dAt data a) q avg
      then q else best)
      = fun best q => if triangleArea (dAt data a) avg best
          < triangleArea (dAt data a) avg q then q else best := by
    funext best q
    rw [harea, harea]
  rw [hfun]
  rw [foldl_max_bridge (fun q => triangleArea (dAt data a) avg q) (dAt data)
    (List.range' (offs + 1) m) offs]
  congr 1
  simp only [selectInBucket]
  rw [show List.range (hi - offs) = List.range (m + 1) by rw [hm]]
  have hconv : (List.range (m + 1)).foldl
      (fun (st : ℚ × Nat) j =>
        let idx := offs + j
        let area := triangleArea (dAt data a) avg (dAt data idx)
        if st.1 < area then (area, idx) else st)
      ((-1 : ℚ), offs)
      = (List.range' offs (m + 1)).foldl
        (fun (st : ℚ × Nat) idx =>
          if st.1 < triangleArea (dAt data a) avg (dAt data idx)
          then (triangleArea (dAt data a) avg (dAt data idx), idx) else st)
        ((-1 : ℚ), offs) := by
    rw [List.range'_eq_map_range, List.foldl_map]
  rw [hconv, List.range'_succ, List.foldl_cons]
  have hnonneg : (0 : ℚ) ≤ triangleArea (dAt data a) avg (dAt data offs) := by
    unfold triangleArea
    positivity
  rw [if_pos (by linarith : (-1 : ℚ) < triangleArea (dAt data a) avg (dAt data offs))]

/-- The source's bucket loop refines the spec's per-bucket selection loop. -/
theorem lttbLoop_eq_specLoop (data : List TSPoint) (every : ℚ) (h1 : 1 ≤ every) :
    ∀ (n i a : Nat), bucketIdx every (i + n) ≤ data.length →
      lttbLoop data every a i n = specLttbLoop data every (dAt data a) i n := by
  intro n
  induction n with
  | zero => intro i a _; rfl
  | succ m ih =>
    intro i a hbound
    have hb1 : bucketIdx every (i + 1) ≤ data.length :=
      le_trans (bucketIdx_mono every h1 (by omega)) hbound
    have hlt : bucketIdx every i < bucketIdx every (i + 1) :=
      bucketIdx_lt_succ every h1 i
    have havg : bucketAvg data every i = specAvgPoint (specBucket data every (i + 1)) :=
      bucketAvg_eq_spec data every i hb1 (le_of_lt (bucketIdx_lt_succ every h1 (i + 1)))
    have hsel : dAt data (selectInBucket data a (bucketAvg data every i)
        (bucketIdx every i) (bucketIdx every (i + 1)))
        = (firstMaxBy (fun p => specTriangleArea (dAt data a) p (bucketAvg data every i))
            ((data.drop (bucketIdx every i)).take
              (bucketIdx every (i + 1) - bucketIdx every i))).getD (dAt data a) :=
      select_eq_spec data (bucketAvg data every i) a _ _ hlt hb1
    have hbound' : bucketIdx every ((i + 1) + m) ≤ data.length := by
      rw [show (i + 1) + m = i + (m + 1) from by omega]
      exact hbound
    have htail := ih (i + 1)
      (selectInBucket data a (bucketAvg data every i)
        (bucketIdx every i) (bucketIdx every (i + 1))) hbound'
    have hsel' : dAt data (selectInBucket data a (bucketAvg data every i)
        (bucketIdx every i) (bucketIdx every (i + 1)))
        = (firstMaxBy (fun p => specTriangleArea (dAt data a) p (bucketAvg data every i))
            (specBucket data every i)).getD (dAt data a) := hsel
    simp only [lttbLoop, specLttbLoop]
    rw [← havg, ← hsel', htail]

/-- Claim C1: in the validated regime `2 < threshold < data.length` on a sorted
input, the source's LTTB equals the specification-side formulation: per bucket
`i` it averages bucket `i+1` (truncating integer average for timestamps,
rational average for values), selects the first candidate of bucket `i`
maximizing the cross-product triangle area against the previous selection and
that average (strict `>` comparison, first seen wins), appends it and makes it
the new previous point. -/
theorem lttb_matches_spec (data : List TSPoint) (threshold : Nat)
    (hsorted : data.Pairwise tsLE) (hT : 2 < threshold) (hL : threshold < data.length) :
    lttb data threshold = specLttb data threshold := by
  have hguard : ¬ (data.length ≤ threshold ∨ threshold = 0) := by omega
  have h1 : 1 ≤ ((data.length - 2 : Nat) : ℚ) / ((threshold - 2 : Nat) : ℚ) :=
    every_one_le data.length threshold hT hL
  have htop := bucketIdx_top data.length threshold hT hL
  have hL0 : 0 < data.length := by omega
  have hhead : dAt data 0 = data.headD ⟨0, 0⟩ := by
    cases data with
    | nil => simp at hL0
    | cons p l => rfl
  have hlast : dAt data (data.length - 1) = data.getLastD ⟨0, 0⟩ := by
    have hl : data.length - 1 < data.length := by omega
    rw [List.getLastD_eq_getLast?, List.getLast?_eq_getElem?,
      List.getElem?_eq_getElem hl]
    unfold dAt
    rw [List.getD_eq_getElem _ _ hl]
    rfl
  have hloop := lttbLoop_eq_specLoop data
    (((data.length - 2 : Nat) : ℚ) / ((threshold - 2 : Nat) : ℚ)) h1
    (threshold - 2) 0 0
    (by rw [Nat.zero_add, htop]; omega)
  simp only [lttb, specLttb, if_neg hguard]
  rw [← hhead, ← hlast, hloop]

/-- Witness for C1 at a concrete input. -/
theorem lttb_matches_spec_witness :
    (([⟨0, 0⟩, ⟨1, 10⟩, ⟨2, 0⟩, ⟨3, 10⟩, ⟨4, 0⟩] : List TSPoint).Pairwise tsLE ∧
      2 < 3 ∧ 3 < ([⟨0, 0⟩, ⟨1, 10⟩, ⟨2, 0⟩, ⟨3, 10⟩, ⟨4, 0⟩] : List TSPoint).length) ∧
    lttb [⟨0, 0⟩, ⟨1, 10⟩, ⟨2, 0⟩, ⟨3, 10⟩, ⟨4, 0⟩] 3
      = specLttb [⟨0, 0⟩, ⟨1, 10⟩, ⟨2, 0⟩, ⟨3, 10⟩, ⟨4, 0⟩] 3 :=
  ⟨⟨by decide, by decide, by decide⟩,
    lttb_matches_spec [⟨0, 0⟩, ⟨1, 10⟩, ⟨2, 0⟩, ⟨3, 10⟩, ⟨4, 0⟩] 3
      (by decide) (by decide) (by decide)⟩
